import Mathlib

/-!
Shallow embedding of the arxiv-search VS Code extension's core
(aggregation-and-normalization engine): the key/record synthesizer,
the normalizer helpers, the three source-adapter mapping functions and
the aggregator's pending-counter state machine.

Strings are modelled as Lean `String` (lists of characters); the
JavaScript regular-expression operations used by the source are
implemented character-by-character below.  ASCII case conversion is
used (`Char.toLower`), matching the source's behaviour on the ASCII
inputs that its key fragments keep.
-/

namespace ArxivSearch

/-- JS whitespace class `\s` (the ASCII members; the sources' fields use these). -/
def isWs (c : Char) : Bool :=
  c == ' ' || c == '\t' || c == '\n' || c == '\r' || c == '\x0b' || c == '\x0c'

/-- `String.prototype.trim()`: drop leading and trailing whitespace. -/
def jsTrim (s : String) : String :=
  String.mk (((s.data.dropWhile isWs).reverse.dropWhile isWs).reverse)

/-- Worker for `replace(/\s+/g, " ")`.  The flag is true while inside a
whitespace run whose first character has already been emitted as a space. -/
def collapseWsAux : Bool → List Char → List Char
  | _, [] => []
  | true, c :: rest =>
      if isWs c then collapseWsAux true rest else c :: collapseWsAux false rest
  | false, c :: rest =>
      if isWs c then ' ' :: collapseWsAux true rest else c :: collapseWsAux false rest

/-- `s.replace(/\s+/g, " ")`: every maximal whitespace run becomes one space. -/
def collapseWsStr (s : String) : String :=
  String.mk (collapseWsAux false s.data)

/-- Worker for `s.split(/\s+/)`.  The flag is true while skipping the rest of a
separator run; `acc` holds the current (reversed) field. -/
def splitWsAux : Bool → List Char → List Char → List (List Char)
  | _, [], acc => [acc.reverse]
  | true, c :: rest, acc =>
      if isWs c then splitWsAux true rest acc else splitWsAux false rest [c]
  | false, c :: rest, acc =>
      if isWs c then acc.reverse :: splitWsAux true rest [] else splitWsAux false rest (c :: acc)

/-- JS `s.split(/\s+/)` on the character list: separators are maximal whitespace
runs; a leading or trailing separator contributes an empty field, and the empty
string yields `[""]`. -/
def jsSplitWs (l : List Char) : List (List Char) :=
  splitWsAux false l []

/-- `s.replace(/\s+\d{1,4}$/, "")`: remove a trailing run of one to four digits
together with the whitespace run in front of it; any other string is unchanged.
(A trailing run of five or more digits never matches, since `\d{1,4}` anchored
at the end would have to start inside the digits.) -/
def stripNumericSuffix (s : String) : String :=
  let r := s.data.reverse
  let ds := r.takeWhile Char.isDigit
  let rest := r.dropWhile Char.isDigit
  if 1 ≤ ds.length && ds.length ≤ 4 && (match rest.head? with
      | some c => isWs c
      | none => false) then
    String.mk ((rest.dropWhile isWs).reverse)
  else s

/-- The stopword set of the source. -/
def STOPWORDS : List String := ["a", "an", "the"]

/-- `clean`: lowercase, then drop every character outside `[a-z0-9]`. -/
def clean (s : String) : String :=
  String.mk ((s.data.map Char.toLower).filter (fun c => c.isLower || c.isDigit))

/-- `surname`: strip the numeric disambiguation suffix from the trimmed input;
if a comma remains, everything before the first comma (trimmed), else the last
whitespace-delimited token (`tokens[tokens.length - 1]`). -/
def surname (input : String) : String :=
  let s := stripNumericSuffix (jsTrim input)
  if s.data.contains ',' then jsTrim (String.mk (s.data.takeWhile (fun c => c ≠ ',')))
  else String.mk ((jsSplitWs s.data).getLastD [])

/-- Strip leading and trailing non-alphanumeric characters from one token
(`w.replace(/^[^A-Za-z0-9]+|[^A-Za-z0-9]+$/g, "")`). -/
def stripEdges (w : List Char) : List Char :=
  ((w.dropWhile (fun c => !(c.isAlpha || c.isDigit))).reverse.dropWhile
    (fun c => !(c.isAlpha || c.isDigit))).reverse

/-- The token list `firstWord` scans: split on whitespace, strip token edges,
drop empty tokens (`filter(Boolean)`). -/
def firstWordTokens (title : String) : List (List Char) :=
  ((jsSplitWs title.data).map stripEdges).filter (fun w => w ≠ [])

/-- Is this token (lowercased) a stopword? -/
def isStop (w : List Char) : Bool :=
  STOPWORDS.contains (String.mk (w.map Char.toLower))

/-- `firstWord`: first token whose lowercase form is not a stopword; otherwise
`words[0] ?? "paper"`. -/
def firstWord (title : String) : String :=
  let words := firstWordTokens title
  match words.find? (fun w => !isStop w) with
  | some w => String.mk w
  | none => String.mk (words.headD "paper".data)

/-- The `source` tag of a record. -/
inductive Source where
  | arxiv
  | crossref
  | dblp
deriving DecidableEq, Repr

/-- The `Paper` interface: title, authors, year and id are always present
(`journal` is optional), exactly as in the source's TypeScript interface. -/
structure Paper where
  source : Source
  title : String
  authors : List String
  year : String
  id : String
  journal : Option String := none
deriving DecidableEq, Repr

/-- `bibKey`: `clean(surname(p.authors[0] ?? "anon")) + p.year + clean(firstWord(p.title))`. -/
def bibKey (p : Paper) : String :=
  clean (surname (p.authors.headD "anon")) ++ p.year ++ clean (firstWord p.title)

/-- The shared template head of every entry (braces written as escapes). -/
def bibtexBase (p : Paper) : String :=
  "@article\x7b" ++ bibKey p ++ ",\n  title  = \x7b" ++ p.title ++
    "\x7d,\n  author = \x7b" ++ String.intercalate " and " p.authors ++
    "\x7d,\n  year   = \x7b" ++ p.year ++ "\x7d,"

/-- JS `s.startsWith(pre)`. -/
def jsStartsWith (s pre : String) : Bool :=
  pre.data.isPrefixOf s.data

/-- The full record text of `bibtex`, by source branch. -/
def bibtexText (p : Paper) : String :=
  match p.source with
  | .arxiv =>
      bibtexBase p ++ "\n  journal= \x7barXiv\x7d,\n  eprint = \x7b" ++ p.id ++ "\x7d\n\x7d\n"
  | .crossref =>
      bibtexBase p ++ "\n  journal= \x7b" ++ p.journal.getD "journal" ++
        "\x7d,\n  doi    = \x7b" ++ p.id ++ "\x7d\n\x7d\n"
  | .dblp =>
      bibtexBase p ++ ("\n  journal= \x7b" ++ (p.journal.getD "conference" ++ ("\x7d,\n  " ++
        ((if jsStartsWith p.id "10." then "doi    = \x7b" ++ p.id ++ "\x7d"
          else "url    = \x7b" ++ p.id ++ "\x7d") ++ "\n\x7d\n"))))

/-- `bibtex(p)`: the `(key, text)` pair. -/
def bibtex (p : Paper) : String × String :=
  (bibKey p, bibtexText p)

/-- Substring test: does `pat` occur contiguously in the second list? -/
def subList (pat : List Char) : List Char → Bool
  | [] => pat.isEmpty
  | c :: rest => pat.isPrefixOf (c :: rest) || subList pat rest

/-- Substring test on strings. -/
def strContains (hay pat : String) : Bool :=
  subList pat.data hay.data

/-- A raw author value as `toAuthorStr` receives it: either a plain string or
an object probed for `text`, `"#text"`, `name`, `family`, `given`. -/
inductive AuthorRaw where
  | strA (s : String)
  | objA (text hashText name family given : Option String)
deriving DecidableEq, Repr

/-- `toAuthorStr`: fallback chain
`a?.text ?? a?.["#text"] ?? a?.name ?? (a.family ?? "") + " " + (a.given ?? "")`
for objects (strings pass through), then trim and strip the numeric suffix. -/
def toAuthorStr (a : AuthorRaw) : String :=
  let raw := match a with
    | .strA s => s
    | .objA t ht n f g => ((t <|> ht) <|> n).getD (f.getD "" ++ " " ++ g.getD "")
  stripNumericSuffix (jsTrim raw)

/-- The `author` field of an arXiv Atom entry: one author object or an array;
each object carries a `name` string. -/
inductive ArxivAuthors where
  | one (name : String)
  | many (names : List String)
deriving DecidableEq, Repr

/-- One raw arXiv Atom entry, with the fields the mapping reads. -/
structure ArxivEntry where
  title : String
  author : ArxivAuthors
  published : String
  idUrl : String
deriving DecidableEq, Repr

/-- The arXiv adapter's per-entry mapping (`searchArxiv`'s `entries.map` body).
`e.id.split("/abs/")[1]` is `undefined` when the URL has no `/abs/` segment;
JS would later interpolate that as the string `"undefined"`, which is how the
out-of-range index is rendered here. -/
def arxivMapEntry (e : ArxivEntry) : Paper :=
  { source := .arxiv
    title := collapseWsStr (jsTrim e.title)
    authors := (match e.author with
      | .one a => [a]
      | .many as => as).map (fun n => toAuthorStr (.strA n))
    year := String.mk (e.published.data.take 4)
    id := (e.idUrl.splitOn "/abs/").getD 1 "undefined"
    journal := none }

/-- One raw Crossref work item, with the fields the mapping reads.  The two
date fields stand for `issued["date-parts"]` and `created["date-parts"]`. -/
structure CrossrefItem where
  title : Option (List String)
  author : Option (List AuthorRaw)
  issued : Option (List (List Nat))
  created : Option (List (List Nat))
  doi : Option String
  containerTitle : Option (List String)
deriving DecidableEq, Repr

/-- The Crossref adapter's per-item mapping (`searchCrossref`'s `items.map` body). -/
def crossrefMapItem (it : CrossrefItem) : Paper :=
  { source := .crossref
    title := ((it.title.bind List.head?).getD "(untitled)")
    authors := (it.author.getD []).map toAuthorStr
    year := ((((it.issued.bind List.head?).bind List.head?).map toString) <|>
             (((it.created.bind List.head?).bind List.head?).map toString)).getD "????"
    id := it.doi.getD ""
    journal := it.containerTitle.bind List.head? }

/-- The `info.authors.author` field of a DBLP hit: one raw author or an array. -/
inductive DblpAuthors where
  | one (a : AuthorRaw)
  | many (as : List AuthorRaw)
deriving DecidableEq, Repr

/-- One raw DBLP hit's `info` object, with the fields the mapping reads.
`year` may arrive as a number in JS; its `String(...)` coercion result is
modelled as the string field here. -/
structure DblpInfo where
  title : Option String
  authorsAuthor : Option DblpAuthors
  year : Option String
  doi : Option String
  url : Option String
  venue : Option String
  journal : Option String
  booktitle : Option String
  type : Option String
deriving DecidableEq, Repr

/-- The DBLP adapter's per-hit mapping (`searchDblp`'s `hits.map` body). -/
def dblpMapItem (d : DblpInfo) : Paper :=
  { source := .dblp
    title := collapseWsStr (d.title.getD "(untitled)")
    authors := match d.authorsAuthor with
      | some (.many as) => as.map toAuthorStr
      | some (.one a) => [toAuthorStr a]
      | none => []
    year := d.year.getD "????"
    id := ((d.doi <|> d.url)).getD ""
    journal := ((d.venue <|> d.journal) <|> d.booktitle) <|>
        (d.type.map (fun s => String.mk (s.data.map (fun c => if c = '_' then ' ' else c)))) }

/-! ### The aggregator's pending counter

`activate` starts the three searches, appends each batch to `qp.items` on
success, shows an error message (and appends nothing) on failure, and in both
cases runs `finish`, which decrements `pending` and clears `qp.busy` when it
reaches zero.  The state below is the observable part of that session, and one
`SourceEvent` is the settling of one source, in completion order. -/

/-- The settling of one source: its batch of records, or a failure. -/
inductive SourceEvent where
  | success (records : List Paper)
  | failure
deriving DecidableEq, Repr

/-- How many records an event contributes. -/
def recCount : SourceEvent → Nat
  | .success rs => rs.length
  | .failure => 0

/-- The observable session state: the pending counter, the accumulated item
list, and the `busy` ("aggregating") flag. -/
structure Session where
  pending : Nat
  items : List Paper
  busy : Bool
deriving DecidableEq, Repr

/-- Session start: `pending = 3` (arXiv + DBLP + Crossref), no items, busy. -/
def initSession : Session :=
  { pending := 3, items := [], busy := true }

/-- The `finish` callback: decrement `pending`; at zero, clear `busy`. -/
def finishStep (s : Session) : Session :=
  let p := s.pending - 1
  { s with pending := p, busy := if p = 0 then false else s.busy }

/-- One source settles: a success appends its batch before `finish` runs, a
failure only runs `finish`. -/
def applyEvent (s : Session) : SourceEvent → Session
  | .success rs => finishStep { s with items := s.items ++ rs }
  | .failure => finishStep s

/-- Run a session through a list of settling events (in completion order). -/
def runSession (evs : List SourceEvent) : Session :=
  evs.foldl applyEvent initSession

/-- Is every whitespace in the list a single plain space (no run of two)? -/
def collapsedB : List Char → Bool
  | [] => true
  | [c] => !isWs c || c == ' '
  | c :: c2 :: rest =>
      (!isWs c || c == ' ') && (c != ' ' || c2 != ' ') && collapsedB (c2 :: rest)

/-! ### Helper lemmas -/

theorem nil_isPrefixOf (l : List Char) : List.isPrefixOf [] l = true := by
  cases l <;> rfl

theorem isPrefixOf_self_append (p q : List Char) : p.isPrefixOf (p ++ q) = true := by
  induction p with
  | nil => exact nil_isPrefixOf q
  | cons a p ih =>
    simp only [List.cons_append, List.isPrefixOf, beq_self_eq_true, Bool.true_and]
    exact ih

theorem isPrefixOf_append_right (p l y : List Char) (h : p.isPrefixOf l = true) :
    p.isPrefixOf (l ++ y) = true := by
  induction p generalizing l with
  | nil => exact nil_isPrefixOf (l ++ y)
  | cons a p ih =>
    cases l with
    | nil => simp [List.isPrefixOf] at h
    | cons b l =>
      simp only [List.isPrefixOf, Bool.and_eq_true] at h
      simp only [List.cons_append, List.isPrefixOf, h.1, Bool.true_and]
      exact ih l h.2

theorem subList_append_right (pat x l : List Char) (h : subList pat l = true) :
    subList pat (x ++ l) = true := by
  induction x with
  | nil => simpa using h
  | cons c x ih =>
    simp only [List.cons_append, subList, Bool.or_eq_true]
    right
    exact ih

theorem subList_append_left (pat l y : List Char) (h : subList pat l = true) :
    subList pat (l ++ y) = true := by
  induction l with
  | nil =>
    simp only [subList, List.isEmpty_iff] at h
    subst h
    cases y with
    | nil => rfl
    | cons c rest => simp only [List.nil_append, subList, nil_isPrefixOf, Bool.true_or]
  | cons c l ih =>
    simp only [subList, Bool.or_eq_true] at h
    rcases h with h | h
    · have hp := isPrefixOf_append_right pat (c :: l) y h
      simp only [List.cons_append] at hp ⊢
      simp only [subList, Bool.or_eq_true]
      left
      exact hp
    · simp only [List.cons_append, subList, Bool.or_eq_true]
      right
      exact ih h

theorem subList_self (pat : List Char) : subList pat pat = true := by
  cases pat with
  | nil => rfl
  | cons c l =>
    have := isPrefixOf_self_append (c :: l) []
    simp only [List.append_nil] at this
    simp only [subList, this, Bool.true_or]

theorem strContains_left (x y pat : String) (h : strContains x pat = true) :
    strContains (x ++ y) pat = true :=
  subList_append_left pat.data x.data y.data h

theorem strContains_right (x y pat : String) (h : strContains y pat = true) :
    strContains (x ++ y) pat = true :=
  subList_append_right pat.data x.data y.data h

theorem strContains_self (pat : String) : strContains pat pat = true :=
  subList_self pat.data

/-- In skip mode, `collapseWsAux` never emits a space first. -/
theorem collapseWsAux_true_head (l : List Char) :
    ∀ c t, collapseWsAux true l = c :: t → c ≠ ' ' := by
  induction l with
  | nil => intro c t h; simp [collapseWsAux] at h
  | cons a rest ih =>
    intro c t h
    by_cases hws : isWs a = true
    · rw [collapseWsAux, if_pos hws] at h
      exact ih c t h
    · rw [collapseWsAux, if_neg hws] at h
      cases h
      intro he
      subst he
      simp [isWs] at hws

theorem collapsedB_cons_not_ws (c : Char) (L : List Char) (h : isWs c = false) :
    collapsedB (c :: L) = collapsedB L := by
  have hne : c ≠ ' ' := by
    intro he
    subst he
    simp [isWs] at h
  have hc : (c == ' ') = false := by simpa using hne
  have hc2 : (c != ' ') = true := by simp [bne, hc]
  cases L with
  | nil => simp [collapsedB, h]
  | cons c2 t => simp [collapsedB, h, hc2]

theorem collapsedB_cons_space (L : List Char) (h1 : collapsedB L = true)
    (h2 : ∀ c2 t, L = c2 :: t → c2 ≠ ' ') : collapsedB (' ' :: L) = true := by
  cases L with
  | nil => rfl
  | cons c2 t =>
    have : (c2 != ' ') = true := by
      have := h2 c2 t rfl
      simp [bne, this]
    simp [collapsedB, isWs, this, h1]

/-- Whatever `collapseWsAux` produces is whitespace-collapsed. -/
theorem collapseWsAux_collapsed (l : List Char) : ∀ b, collapsedB (collapseWsAux b l) = true := by
  induction l with
  | nil => intro b; cases b <;> rfl
  | cons c rest ih =>
    intro b
    by_cases hws : isWs c = true
    · cases b with
      | true => rw [collapseWsAux, if_pos hws]; exact ih true
      | false =>
        rw [collapseWsAux, if_pos hws]
        exact collapsedB_cons_space _ (ih true) (collapseWsAux_true_head rest)
    · have hf : isWs c = false := by simpa using hws
      cases b with
      | true =>
        rw [collapseWsAux, if_neg hws, collapsedB_cons_not_ws c _ hf]
        exact ih false
      | false =>
        rw [collapseWsAux, if_neg hws, collapsedB_cons_not_ws c _ hf]
        exact ih false

theorem head?_dropWhile_not (p : Char → Bool) (l : List Char) :
    ∀ c, (l.dropWhile p).head? = some c → p c = false := by
  induction l with
  | nil => intro c h; simp [List.dropWhile] at h
  | cons a rest ih =>
    intro c h
    by_cases hp : p a = true
    · rw [List.dropWhile_cons_of_pos hp] at h
      exact ih c h
    · rw [List.dropWhile_cons_of_neg hp] at h
      simp only [List.head?_cons, Option.some.injEq] at h
      subst h
      simpa using hp

theorem getLast?_dropWhile (p : Char → Bool) (l : List Char) (h : l.dropWhile p ≠ []) :
    (l.dropWhile p).getLast? = l.getLast? := by
  conv_rhs => rw [← List.takeWhile_append_dropWhile p l]
  rw [List.getLast?_append_of_ne_nil _ h]

theorem jsTrim_getLast_not_ws (s : String) :
    ∀ c, (jsTrim s).data.getLast? = some c → isWs c = false := by
  intro c h
  simp only [jsTrim] at h
  rw [List.getLast?_reverse] at h
  exact head?_dropWhile_not isWs _ c h

theorem jsTrim_head_not_ws (s : String) :
    ∀ c, (jsTrim s).data.head? = some c → isWs c = false := by
  intro c h
  simp only [jsTrim] at h
  rw [List.head?_reverse] at h
  have hne : (s.data.dropWhile isWs).reverse.dropWhile isWs ≠ [] := by
    intro he
    rw [he] at h
    simp at h
  rw [getLast?_dropWhile isWs _ hne, List.getLast?_reverse] at h
  exact head?_dropWhile_not isWs _ c h

theorem stripNumericSuffix_keeps (s : String)
    (hne : s.data ≠ [])
    (hhead : ∀ c, s.data.head? = some c → isWs c = false) :
    (stripNumericSuffix s).data ≠ [] := by
  · simp only [stripNumericSuffix]
    split
    · next hcond =>
      simp only [Bool.and_eq_true, decide_eq_true_eq] at hcond
      intro habs
      have hm : (s.data.reverse.dropWhile Char.isDigit).dropWhile isWs = [] := by
        simpa using habs
      have hall : ∀ x ∈ s.data.reverse.dropWhile Char.isDigit, isWs x = true :=
        List.dropWhile_eq_nil_iff.mp hm
      have hrest : s.data.reverse.dropWhile Char.isDigit ≠ [] := by
        rcases hcond with ⟨_, hmatch⟩
        cases hr : s.data.reverse.dropWhile Char.isDigit with
        | nil => rw [hr] at hmatch; simp at hmatch
        | cons a t => exact List.cons_ne_nil a t
      have hx : ∃ x, (s.data.reverse.dropWhile Char.isDigit).getLast? = some x := by
        rw [List.getLast?_eq_getLast_of_ne_nil hrest]
        exact ⟨_, rfl⟩
      rcases hx with ⟨x, hxl⟩
      have hxmem : x ∈ s.data.reverse.dropWhile Char.isDigit := by
        rcases List.mem_getLast?_eq_getLast (by rw [hxl]; rfl :
          x ∈ (s.data.reverse.dropWhile Char.isDigit).getLast?) with ⟨hh, hxx⟩
        rw [hxx]
        exact List.getLast_mem hh
      have hxws : isWs x = true := hall x hxmem
      have hhd : s.data.head? = some x := by
        have h1 : s.data.head? = s.data.reverse.getLast? := by
          rw [List.getLast?_reverse]
        have h2 : s.data.reverse.getLast? =
            (s.data.reverse.dropWhile Char.isDigit).getLast? := by
          conv_lhs => rw [← List.takeWhile_append_dropWhile Char.isDigit s.data.reverse]
          rw [List.getLast?_append_of_ne_nil _ hrest]
        rw [h1, h2, hxl]
      have := hhead x hhd
      rw [this] at hxws
      exact Bool.false_ne_true hxws
    · next hcond => exact hne

theorem stripNumericSuffix_getLast_not_ws (s : String)
    (hlast : ∀ c, s.data.getLast? = some c → isWs c = false) :
    ∀ c, (stripNumericSuffix s).data.getLast? = some c → isWs c = false := by
  intro c h
  simp only [stripNumericSuffix] at h
  revert h
  split
  · intro h
    rw [show ∀ l : List Char, (String.mk l).data = l from fun _ => rfl,
      List.getLast?_reverse] at h
    exact head?_dropWhile_not isWs _ c h
  · intro h
    exact hlast c h

theorem splitWsAux_ne_nil : ∀ (l : List Char) (b : Bool) (acc : List Char),
    splitWsAux b l acc ≠ [] := by
  intro l
  induction l with
  | nil => intro b acc; cases b <;> exact List.cons_ne_nil _ _
  | cons c rest ih =>
    intro b acc
    cases b with
    | true =>
      rw [splitWsAux]
      split
      · exact ih true acc
      · exact ih false [c]
    | false =>
      rw [splitWsAux]
      split
      · exact List.cons_ne_nil _ _
      · exact ih false (c :: acc)

theorem splitWsAux_getLast?_ne_nil :
    ∀ (l : List Char) (b : Bool) (acc : List Char),
      ((∃ c, l.getLast? = some c ∧ isWs c = false) ∨ (l = [] ∧ acc ≠ [])) →
      ∀ w, (splitWsAux b l acc).getLast? = some w → w ≠ [] := by
  intro l
  induction l with
  | nil =>
    intro b acc hyp w hw
    have hacc : acc ≠ [] := by
      rcases hyp with ⟨c, hc, _⟩ | ⟨_, hacc⟩
      · simp at hc
      · exact hacc
    have : splitWsAux b ([] : List Char) acc = [acc.reverse] := by cases b <;> rfl
    rw [this] at hw
    simp only [List.getLast?_singleton, Option.some.injEq] at hw
    subst hw
    simpa using hacc
  | cons c rest ih =>
    intro b acc hyp w hw
    rcases hyp with ⟨cl, hcl, hclws⟩ | ⟨habs, _⟩
    · by_cases hws : isWs c = true
      · have hrest : rest ≠ [] := by
          rintro rfl
          simp only [List.getLast?_singleton, Option.some.injEq] at hcl
          subst hcl
          rw [hws] at hclws
          exact absurd hclws (by decide)
        have hcl' : rest.getLast? = some cl := by
          cases rest with
          | nil => exact absurd rfl hrest
          | cons r rs => rw [List.getLast?_cons_cons] at hcl; exact hcl
        cases b with
        | true =>
          rw [splitWsAux, if_pos hws] at hw
          exact ih true acc (Or.inl ⟨cl, hcl', hclws⟩) w hw
        | false =>
          rw [splitWsAux, if_pos hws] at hw
          have hM : splitWsAux true rest [] ≠ [] := splitWsAux_ne_nil rest true []
          have : (acc.reverse :: splitWsAux true rest []).getLast? =
              (splitWsAux true rest []).getLast? := by
            cases hM' : splitWsAux true rest [] with
            | nil => exact absurd hM' hM
            | cons m ms => exact List.getLast?_cons_cons
          rw [this] at hw
          exact ih true [] (Or.inl ⟨cl, hcl', hclws⟩) w hw
      · have hwsf : isWs c = false := by simpa using hws
        cases rest with
        | nil =>
          have haux : ∀ acc2 : List Char, acc2 ≠ [] →
              ∀ w2, (splitWsAux false ([] : List Char) acc2).getLast? = some w2 → w2 ≠ [] :=
            fun acc2 h2 w2 hw2 => ih false acc2 (Or.inr ⟨rfl, h2⟩) w2 hw2
          cases b with
          | true =>
            rw [splitWsAux, if_neg hws] at hw
            exact haux [c] (List.cons_ne_nil _ _) w hw
          | false =>
            rw [splitWsAux, if_neg hws] at hw
            exact haux (c :: acc) (List.cons_ne_nil _ _) w hw
        | cons r rs =>
          have hcl' : (r :: rs).getLast? = some cl := by
            rw [List.getLast?_cons_cons] at hcl; exact hcl
          cases b with
          | true =>
            rw [splitWsAux, if_neg hws] at hw
            exact ih false [c] (Or.inl ⟨cl, hcl', hclws⟩) w hw
          | false =>
            rw [splitWsAux, if_neg hws] at hw
            exact ih false (c :: acc) (Or.inl ⟨cl, hcl', hclws⟩) w hw
    · exact absurd habs (List.cons_ne_nil c rest)

/-! ### Concrete records and the spec-side key formula -/

/-- The key formula as the design document states it:
`cleanForKey(extractSurname(firstAuthorOrFallback)) + year + cleanForKey(firstSignificantWord(title))`,
with `firstAuthorOrFallback = authors[0]` if non-empty else `"anon"`. -/
def specKeyFormula (p : Paper) : String :=
  clean (surname (p.authors.headD "anon")) ++ p.year ++ clean (firstWord p.title)

/-- The end-to-end scenario record of §8. -/
def tongPaper : Paper :=
  { source := .arxiv, title := "Diffusion Models Beat GANs", authors := ["Tong, Alex"],
    year := "2024", id := "2401.00001" }

/-- A generic record used to build batches of a given size. -/
def dummyPaper : Paper :=
  { source := .arxiv, title := "T", authors := ["A"], year := "2024", id := "1" }

/-- A third-source record whose identifier is a DOI. -/
def dblpDoiPaper : Paper :=
  { source := .dblp, title := "T", authors := ["A"], year := "2020", id := "10.1145/3.4" }

/-- A third-source record whose identifier is a URL. -/
def dblpUrlPaper : Paper :=
  { source := .dblp, title := "T", authors := ["A"], year := "2020",
    id := "https://dblp.org/rec/x" }

/-- A raw DBLP hit whose venue carries a numeric disambiguation counter. -/
def neuripsHit : DblpInfo :=
  { title := some "Paper", authorsAuthor := none, year := some "2020", doi := none,
    url := none, venue := some "NeurIPS 2", journal := none, booktitle := none, type := none }

/-- A raw DBLP hit carrying neither a `doi` nor a `url` field. -/
def bareDblpHit : DblpInfo :=
  { title := some "Paper", authorsAuthor := none, year := some "2020", doi := none,
    url := none, venue := none, journal := none, booktitle := none, type := none }

/-- A raw Crossref item whose title carries an internal newline. -/
def messyCrossrefItem : CrossrefItem :=
  { title := some ["A\nB"], author := none, issued := none, created := none,
    doi := none, containerTitle := none }

/-- A raw arXiv entry with an empty title. -/
def emptyTitleArxivEntry : ArxivEntry :=
  { title := "", author := .many [], published := "2024-01-01",
    idUrl := "http://arxiv.org/abs/1" }

/-- For a DBLP-sourced record, the synthesized text embeds the identifier as a
`doi` field when the id starts with `"10."` and as a `url` field otherwise. -/
theorem dblp_text_id_field (p : Paper) (h : p.source = Source.dblp) :
    (jsStartsWith p.id "10." = true →
      strContains (bibtexText p) ("doi    = \x7b" ++ p.id ++ "\x7d") = true) ∧
    (jsStartsWith p.id "10." = false →
      strContains (bibtexText p) ("url    = \x7b" ++ p.id ++ "\x7d") = true) := by
  obtain ⟨src, ti, au, yr, id, jo⟩ := p
  simp only at h
  subst h
  constructor
  · intro hpref
    simp only [bibtexText, if_pos hpref]
    apply strContains_right
    apply strContains_right
    apply strContains_right
    apply strContains_right
    apply strContains_left
    exact strContains_self _
  · intro hpref
    have : ¬ (jsStartsWith id "10." = true) := by simp [hpref]
    simp only [bibtexText, if_neg this]
    apply strContains_right
    apply strContains_right
    apply strContains_right
    apply strContains_right
    apply strContains_left
    exact strContains_self _

/-! ### Claims -/

/-- C1: the synthesized citation key equals
`cleanForKey(extractSurname(firstAuthorOrFallback)) + year + cleanForKey(firstSignificantWord(title))`
with the `"anon"` fallback for an empty author list; an empty author list
yields a key whose surname fragment is `cleanForKey("anon")`; and the Tong
record yields key `"tong2024diffusion"` with a record text containing
`eprint = {2401.00001}` and no DOI field. -/
theorem bibKey_matches_spec_formula (q : Paper) (hq : q.authors = []) :
    (∀ p : Paper, bibKey p = specKeyFormula p) ∧
    (∃ rest, bibKey q = clean (surname "anon") ++ rest) ∧
    bibKey tongPaper = "tong2024diffusion" ∧
    strContains (bibtexText tongPaper) "eprint = \x7b2401.00001\x7d" = true ∧
    strContains (bibtexText tongPaper) "doi" = false := by
  refine ⟨fun p => rfl, ⟨q.year ++ clean (firstWord q.title), ?_⟩, by decide, by decide,
    by decide⟩
  rw [bibKey, hq]
  apply String.ext
  simp [String.data_append, List.append_assoc]

/-- A record with an empty author list. -/
def emptyAuthorsPaper : Paper :=
  { source := .arxiv, title := "T", authors := [], year := "2024", id := "x" }

/-- C1 witness: the empty-author hypothesis discharged at a concrete record. -/
theorem bibKey_matches_spec_formula_witness :
    emptyAuthorsPaper.authors = [] ∧
    ((∀ p : Paper, bibKey p = specKeyFormula p) ∧
      (∃ rest, bibKey emptyAuthorsPaper = clean (surname "anon") ++ rest) ∧
      bibKey tongPaper = "tong2024diffusion" ∧
      strContains (bibtexText tongPaper) "eprint = \x7b2401.00001\x7d" = true ∧
      strContains (bibtexText tongPaper) "doi" = false) :=
  ⟨rfl, bibKey_matches_spec_formula emptyAuthorsPaper rfl⟩

/-- C2: the aggregating flag clears exactly when all three sources have
settled (never after zero, one or two settlings); a failed source contributes
no records while still decrementing the pending counter; for any settling
order the final list holds the concatenation of the successful batches, so a
run with one failure and successes of 5 and 7 records ends with 12 records;
and three failures still settle with an empty list. -/
theorem aggregator_settles (e1 e2 e3 : SourceEvent) :
    (runSession [e1, e2, e3]).busy = false ∧
    (runSession [e1, e2, e3]).items.length = recCount e1 + recCount e2 + recCount e3 ∧
    (runSession []).busy = true ∧
    (runSession [e1]).busy = true ∧
    (runSession [e1, e2]).busy = true ∧
    (∀ s : Session, (applyEvent s .failure).items = s.items ∧
      (applyEvent s .failure).pending = s.pending - 1) ∧
    runSession [.failure, .failure, .failure] =
      { pending := 0, items := [], busy := false } ∧
    (runSession [.failure, .success (List.replicate 5 dummyPaper),
        .success (List.replicate 7 dummyPaper)]).items.length = 12 ∧
    (runSession [.failure, .success (List.replicate 5 dummyPaper),
        .success (List.replicate 7 dummyPaper)]).busy = false := by
  refine ⟨?_, ?_, rfl, ?_, ?_, ?_, by decide, by decide, by decide⟩
  · cases e1 <;> cases e2 <;> cases e3 <;>
      simp [runSession, applyEvent, finishStep, initSession]
  · cases e1 <;> cases e2 <;> cases e3 <;>
      (simp only [runSession, List.foldl, applyEvent, finishStep, initSession, recCount,
        List.length_append, List.length_nil]; try omega)
  · cases e1 <;> simp [runSession, applyEvent, finishStep, initSession]
  · cases e1 <;> cases e2 <;> simp [runSession, applyEvent, finishStep, initSession]
  · intro s
    exact ⟨rfl, rfl⟩

/-- C3 counterexample: for the all-stopword title "The" the code returns the
first token "The", not the claimed literal fallback "paper". -/
theorem firstWord_all_stopwords_counterexample :
    firstWord "The" = "The" ∧ firstWord "The" ≠ "paper" := by decide

/-- C3 (amended): `firstWord` splits on whitespace, strips token edges, drops
empty tokens and returns the first non-stopword token; when every remaining
token is a stopword it returns the FIRST TOKEN (`words[0]`), and the literal
fallback "paper" only when no token remains (e.g. the empty title). -/
theorem firstWord_stopword_fallback (title : String)
    (h : ∀ w ∈ firstWordTokens title, isStop w = true) :
    firstWord title = String.mk ((firstWordTokens title).headD "paper".data) ∧
    firstWord "The Attention Is All You Need" = "Attention" ∧
    firstWord "" = "paper" := by
  refine ⟨?_, by decide, by decide⟩
  have hf : (firstWordTokens title).find? (fun w => !isStop w) = none := by
    rw [List.find?_eq_none]
    intro x hx
    simp [h x hx]
  simp only [firstWord, hf]

/-- C3 witness: the all-stopword hypothesis discharged at the title "The". -/
theorem firstWord_stopword_fallback_witness :
    (∀ w ∈ firstWordTokens "The", isStop w = true) ∧
    (firstWord "The" = String.mk ((firstWordTokens "The").headD "paper".data) ∧
      firstWord "The Attention Is All You Need" = "Attention" ∧
      firstWord "" = "paper") :=
  ⟨by decide, firstWord_stopword_fallback "The" (by decide)⟩

/-- C4 counterexample: a DBLP hit with venue "NeurIPS 2" keeps the trailing
digit group in the record's journal field — the numeric suffix is not
stripped from venue strings. -/
theorem venue_suffix_counterexample :
    (dblpMapItem neuripsHit).journal = some "NeurIPS 2" ∧
    (dblpMapItem neuripsHit).journal ≠ some (stripNumericSuffix "NeurIPS 2") := by decide

/-- C4 (amended): venue strings pass through the DBLP mapping unchanged (no
numeric-suffix stripping); stripping is applied to author strings — the
author input "Jianxin Wang 3" is stripped, and the stripper itself would map
"NeurIPS 2" to "NeurIPS" but is never invoked on venues. -/
theorem venue_not_stripped (d : DblpInfo) (v : String) (h : d.venue = some v) :
    (dblpMapItem d).journal = some v ∧
    toAuthorStr (.strA "Jianxin Wang 3") = "Jianxin Wang" ∧
    stripNumericSuffix "NeurIPS 2" = "NeurIPS" := by
  refine ⟨?_, by decide, by decide⟩
  simp [dblpMapItem, h]

/-- C4 witness: the venue hypothesis discharged at the "NeurIPS 2" hit. -/
theorem venue_not_stripped_witness :
    neuripsHit.venue = some "NeurIPS 2" ∧
    ((dblpMapItem neuripsHit).journal = some "NeurIPS 2" ∧
      toAuthorStr (.strA "Jianxin Wang 3") = "Jianxin Wang" ∧
      stripNumericSuffix "NeurIPS 2" = "NeurIPS") :=
  ⟨rfl, venue_not_stripped neuripsHit "NeurIPS 2" rfl⟩

/-- C5 counterexample: the non-empty input ", Smith" makes `surname` return
the empty string (the segment before the first comma is empty), refuting the
claim that every non-empty input yields a non-empty surname. -/
theorem surname_empty_counterexample :
    surname ", Smith" = "" ∧ ", Smith" ≠ "" := by decide

/-- C5 (amended): `surname` returns a non-empty string for every input that
trims to a non-empty string and, when the trimmed-and-stripped form contains
a comma, whose segment before the first comma does not trim to the empty
string; inputs with a whitespace-only pre-comma segment (such as ", Smith")
yield the empty string instead.  The literal "anon" feeds the key's surname
fragment exactly when the author list is empty. -/
theorem surname_nonempty (input : String)
    (h1 : jsTrim input ≠ "")
    (h2 : (stripNumericSuffix (jsTrim input)).data.contains ',' = true →
      jsTrim (String.mk ((stripNumericSuffix (jsTrim input)).data.takeWhile
        (fun c => c ≠ ','))) ≠ "") :
    surname input ≠ "" ∧
    (∀ p : Paper, p.authors = [] →
      bibKey p = clean (surname "anon") ++ p.year ++ clean (firstWord p.title)) := by
  constructor
  · have htne : (jsTrim input).data ≠ [] := by
      intro he
      exact h1 (String.ext he)
    have hsne : (stripNumericSuffix (jsTrim input)).data ≠ [] :=
      stripNumericSuffix_keeps (jsTrim input) htne (jsTrim_head_not_ws input)
    have hslast := stripNumericSuffix_getLast_not_ws (jsTrim input)
      (jsTrim_getLast_not_ws input)
    simp only [surname]
    by_cases hc : (stripNumericSuffix (jsTrim input)).data.contains ',' = true
    · rw [if_pos hc]
      exact h2 hc
    · rw [if_neg hc]
      have hgl := List.getLast?_eq_getLast_of_ne_nil hsne
      have hex : ∃ c, (stripNumericSuffix (jsTrim input)).data.getLast? = some c ∧
          isWs c = false := ⟨_, hgl, hslast _ hgl⟩
      have hnn : jsSplitWs (stripNumericSuffix (jsTrim input)).data ≠ [] :=
        splitWsAux_ne_nil _ false []
      have hwl := List.getLast?_eq_getLast_of_ne_nil hnn
      have hwne : (jsSplitWs (stripNumericSuffix (jsTrim input)).data).getLast hnn ≠ [] :=
        splitWsAux_getLast?_ne_nil _ false [] (Or.inl hex) _ hwl
      have hld : (jsSplitWs (stripNumericSuffix (jsTrim input)).data).getLastD [] =
          (jsSplitWs (stripNumericSuffix (jsTrim input)).data).getLast hnn := by
        rw [List.getLastD_eq_getLast?, hwl]
        rfl
      rw [hld]
      intro he
      exact hwne (congrArg String.data he)
  · intro p hp
    rw [bibKey, hp]
    rfl

/-- C5 witness: the hypotheses discharged at the input "Wang, Jianxin". -/
theorem surname_nonempty_witness :
    (jsTrim "Wang, Jianxin" ≠ "") ∧
    ((stripNumericSuffix (jsTrim "Wang, Jianxin")).data.contains ',' = true →
      jsTrim (String.mk ((stripNumericSuffix (jsTrim "Wang, Jianxin")).data.takeWhile
        (fun c => c ≠ ','))) ≠ "") ∧
    (surname "Wang, Jianxin" ≠ "" ∧
      (∀ p : Paper, p.authors = [] →
        bibKey p = clean (surname "anon") ++ p.year ++ clean (firstWord p.title))) :=
  ⟨by decide, by decide, surname_nonempty "Wang, Jianxin" (by decide) (by decide)⟩

/-- C6: `surname` strips the trailing numeric suffix first, then takes the
segment before the first comma when a comma is present and the last
whitespace token otherwise: "Wang, Jianxin", "Jianxin Wang" and
"Jianxin Wang 3" all yield "Wang", and the suffix stripper maps
"Jianxin Wang 3" to "Jianxin Wang". -/
theorem surname_extraction_rules :
    surname "Wang, Jianxin" = "Wang" ∧
    surname "Jianxin Wang" = "Wang" ∧
    surname "Jianxin Wang 3" = "Wang" ∧
    stripNumericSuffix "Jianxin Wang 3" = "Jianxin Wang" := by decide

/-- C7: a DBLP record's text carries the identifier as a `doi` field when the
id starts with "10." and as a `url` field otherwise; identifier "10.1145/3.4"
produces a doi field (and no url field), "https://dblp.org/rec/x" a url
field (and no doi field). -/
theorem dblp_doi_url_branch (p : Paper) (h : p.source = Source.dblp) :
    (jsStartsWith p.id "10." = true →
      strContains (bibtexText p) ("doi    = \x7b" ++ p.id ++ "\x7d") = true) ∧
    (jsStartsWith p.id "10." = false →
      strContains (bibtexText p) ("url    = \x7b" ++ p.id ++ "\x7d") = true) ∧
    strContains (bibtexText dblpDoiPaper) "doi    = \x7b10.1145/3.4\x7d" = true ∧
    strContains (bibtexText dblpDoiPaper) "url    =" = false ∧
    strContains (bibtexText dblpUrlPaper) "url    = \x7bhttps://dblp.org/rec/x\x7d" = true ∧
    strContains (bibtexText dblpUrlPaper) "doi    =" = false :=
  ⟨(dblp_text_id_field p h).1, (dblp_text_id_field p h).2,
    by decide, by decide, by decide, by decide⟩

/-- C7 witness: the DBLP-source hypothesis discharged at a concrete record. -/
theorem dblp_doi_url_branch_witness :
    dblpDoiPaper.source = Source.dblp ∧
    ((jsStartsWith dblpDoiPaper.id "10." = true →
      strContains (bibtexText dblpDoiPaper)
        ("doi    = \x7b" ++ dblpDoiPaper.id ++ "\x7d") = true) ∧
    (jsStartsWith dblpDoiPaper.id "10." = false →
      strContains (bibtexText dblpDoiPaper)
        ("url    = \x7b" ++ dblpDoiPaper.id ++ "\x7d") = true) ∧
    strContains (bibtexText dblpDoiPaper) "doi    = \x7b10.1145/3.4\x7d" = true ∧
    strContains (bibtexText dblpDoiPaper) "url    =" = false ∧
    strContains (bibtexText dblpUrlPaper) "url    = \x7bhttps://dblp.org/rec/x\x7d" = true ∧
    strContains (bibtexText dblpUrlPaper) "doi    =" = false) :=
  ⟨rfl, dblp_doi_url_branch dblpDoiPaper rfl⟩

/-- C8: record synthesis is total — the `Paper` type, like the source's
TypeScript interface, always carries `title` and `year`, the code has no
failure branch, and every record yields the `(key, recordText)` pair built
from `bibKey` and the template. -/
theorem synthesis_total (p : Paper) :
    ∃ key text, bibtex p = (key, text) ∧ key = bibKey p ∧ text = bibtexText p :=
  ⟨bibKey p, bibtexText p, rfl, rfl, rfl⟩

/-- C9 counterexample: the Crossref mapping does not collapse whitespace (a
raw title "A\nB" reaches the record verbatim, with its newline), and the
arXiv mapping maps an empty raw title to an empty record title — so adapter
titles are neither always collapsed nor always non-empty. -/
theorem adapter_title_counterexample :
    (crossrefMapItem messyCrossrefItem).title = "A\nB" ∧
    collapsedB ("A\nB").data = false ∧
    (arxivMapEntry emptyTitleArxivEntry).title = "" := by decide

/-- C9 (amended): the arXiv and DBLP mappings produce whitespace-collapsed
titles (every whitespace run becomes one space); the Crossref mapping takes
the first raw title string (or "(untitled)") verbatim, without collapsing;
no adapter guarantees a non-empty title when the raw title is empty. -/
theorem adapter_title_shapes (e : ArxivEntry) (d : DblpInfo) (it : CrossrefItem) :
    collapsedB (arxivMapEntry e).title.data = true ∧
    collapsedB (dblpMapItem d).title.data = true ∧
    (crossrefMapItem it).title = (it.title.bind List.head?).getD "(untitled)" :=
  ⟨collapseWsAux_collapsed (jsTrim e.title).data false,
    collapseWsAux_collapsed (d.title.getD "(untitled)").data false, rfl⟩

/-- C10: a DBLP hit carrying neither `doi` nor `url` maps to a record with an
empty identifier, which fails the "10." prefix test, so its synthesized text
carries an empty URL-typed field `url    = {}`. -/
theorem dblp_missing_id_empty_url (d : DblpInfo) (h1 : d.doi = none) (h2 : d.url = none) :
    (dblpMapItem d).id = "" ∧
    jsStartsWith (dblpMapItem d).id "10." = false ∧
    strContains (bibtexText (dblpMapItem d)) "url    = \x7b\x7d" = true := by
  have hid : (dblpMapItem d).id = "" := by
    simp [dblpMapItem, h1, h2]
  have hpref : jsStartsWith (dblpMapItem d).id "10." = false := by
    rw [hid]
    decide
  refine ⟨hid, hpref, ?_⟩
  have hcont := (dblp_text_id_field (dblpMapItem d) rfl).2 hpref
  rw [hid] at hcont
  exact hcont

/-- C10 witness: the missing-doi/url hypotheses discharged at a concrete hit. -/
theorem dblp_missing_id_empty_url_witness :
    bareDblpHit.doi = none ∧ bareDblpHit.url = none ∧
    ((dblpMapItem bareDblpHit).id = "" ∧
      jsStartsWith (dblpMapItem bareDblpHit).id "10." = false ∧
      strContains (bibtexText (dblpMapItem bareDblpHit)) "url    = \x7b\x7d" = true) :=
  ⟨rfl, rfl, dblp_missing_id_empty_url bareDblpHit rfl rfl⟩

end ArxivSearch
